import Mathlib

/-!
Verification of the `blend` Go package (github.com/phrozen/blend): a shallow
embedding of its color model, channel blend functions and image compositors,
with theorems settling the specification claims.

Conventions of the embedding:
* Go `float64` arithmetic is modelled by exact rational arithmetic (`ℚ`).
  Channel inputs are 16-bit integers, and every concrete input used in a
  counterexample is chosen so that the `float64` computation is exact, hence
  agrees with the rational model at that point.
* A Go `color.Color` is observed only through its `RGBA()` method, which
  yields four 16-bit channel values (alpha-premultiplied); we therefore model
  a color as that observation: a record of four natural numbers.
* Images are rectangles (possibly not anchored at the origin) with a
  color-model tag and a pixel grid; the nested `for` loops of the
  compositors become left folds over the row-major list of coordinates.
-/

set_option maxRecDepth 4000

namespace blend

/-- `max` in blend.go: the uint16 ceiling 0xFFFF used as the numeric range
of all channel computations.  (Named `maxq` here because `max` is taken.) -/
def maxq : ℚ := 65535

/-- `mid` in blend.go: `max / 2.0 = 32767.5`. -/
def midq : ℚ := maxq / 2

/-- A Go `color.Color` as observed through `RGBA()`: four channel values
intended to lie in `[0, 65535]`. -/
structure Color where
  r : ℕ
  g : ℕ
  b : ℕ
  a : ℕ
deriving DecidableEq

/-- The zero color, i.e. what `image.RGBA.At` reports for a never-written or
out-of-bounds pixel. -/
def zeroColor : Color := ⟨0, 0, 0, 0⟩

/-- `rgbaf64` (color.go): the internal floating-point color record. -/
structure rgbaf64 where
  r : ℚ
  g : ℚ
  b : ℚ
  a : ℚ
deriving DecidableEq

/-- `float64ToUint16` (util.go): clamp to `[0, 0xFFFF]`, then round half up
(`uint16(int(x + 0.5))`; the argument of the truncation is nonnegative
there, so Go's truncation toward zero is the floor). -/
def float64ToUint16 (x : ℚ) : ℕ :=
  if x < 0 then 0
  else if x > 65535 then 65535
  else (⌊x + 1/2⌋).toNat

/-- `rgbaf64.RGBA` (color.go): converts each rational channel back to a
16-bit value through `float64ToUint16`. -/
def rgbaf64.RGBA (c : rgbaf64) : Color :=
  ⟨float64ToUint16 c.r, float64ToUint16 c.g, float64ToUint16 c.b, float64ToUint16 c.a⟩

/-- `color2rgbaf64` (color.go): reads the four `RGBA()` channels of a color
and widens them to floating point (exactly representable, so the widening
is the numeric inclusion). -/
def color2rgbaf64 (c : Color) : rgbaf64 :=
  ⟨(c.r : ℚ), (c.g : ℚ), (c.b : ℚ), (c.a : ℚ)⟩

/-- `BlendFunc` (blend.go, current revision): destination color first,
source color second.  Since every consumer of the returned `color.Color`
immediately observes it through `RGBA()`, the embedding uses `Color` as the
return type. -/
def BlendFunc : Type := Color → Color → Color

/-- `blendPerChannel` (blend.go): lifts both colors to floating point,
applies the channel function to r, g, b independently and keeps the
destination's alpha. -/
def blendPerChannel (dst src : Color) (bf : ℚ → ℚ → ℚ) : rgbaf64 :=
  let d := color2rgbaf64 dst
  let s := color2rgbaf64 src
  ⟨bf d.r s.r, bf d.g s.g, bf d.b s.b, d.a⟩

/-- `darken` channel function: `math.Min(d, s)`. -/
def darken (d s : ℚ) : ℚ := min d s

/-- `colorBurn` channel function (blend.go lines 152-157):
`s == 0 ? s : max(0, max-((max-d)*max/s))`. -/
def colorBurn (d s : ℚ) : ℚ :=
  if s = 0 then s
  else max 0 (maxq - (maxq - d) * maxq / s)

/-- `colorDodge` channel function: `s == max ? s : min(max, d*max/(max-s))`. -/
def colorDodge (d s : ℚ) : ℚ :=
  if s = maxq then s
  else min maxq (d * maxq / (maxq - s))

/-- `vividLight` channel function (blend.go lines 259-264).  Note the
argument placement in the calls: `colorBurn((2 * s), d)` and
`colorDodge((2 * (s - mid)), d)`. -/
def vividLight (d s : ℚ) : ℚ :=
  if s < midq then colorBurn (2 * s) d
  else colorDodge (2 * (s - midq)) d

/-- `divide` channel function (blend.go lines 332-334): `(d*max)/s + 1.0`. -/
def divide (d s : ℚ) : ℚ := d * maxq / s + 1

/-- `Darken` blend mode; the public per-channel modes wrap
`blendPerChannel`, whose `rgbaf64` output is observed through `RGBA()`. -/
def Darken (dst src : Color) : Color := (blendPerChannel dst src darken).RGBA

/-- `VividLight` blend mode. -/
def VividLight (dst src : Color) : Color := (blendPerChannel dst src vividLight).RGBA

/-- `Divide` blend mode. -/
def Divide (dst src : Color) : Color := (blendPerChannel dst src divide).RGBA

/-- `DarkerColor` (blend.go lines 170-177): compares the r+g+b sums of the
floating-point records and returns one of the two original colors. -/
def DarkerColor (dst src : Color) : Color :=
  let s := color2rgbaf64 src
  let d := color2rgbaf64 dst
  if s.r + s.g + s.b > d.r + d.g + d.b then dst else src

/-- `LighterColor` (blend.go lines 214-221). -/
def LighterColor (dst src : Color) : Color :=
  let s := color2rgbaf64 src
  let d := color2rgbaf64 dst
  if s.r + s.g + s.b > d.r + d.g + d.b then src else dst

/-- `image.Rectangle`: min corner inclusive, max corner exclusive. -/
structure Rect where
  minX : ℤ
  minY : ℤ
  maxX : ℤ
  maxY : ℤ
deriving DecidableEq

/-- `image.Point.In(r)`: `r.Min.X <= x < r.Max.X` and likewise for y. -/
def inRect (rc : Rect) (x y : ℤ) : Prop :=
  (rc.minX ≤ x ∧ x < rc.maxX) ∧ (rc.minY ≤ y ∧ y < rc.maxY)

instance (rc : Rect) (x y : ℤ) : Decidable (inRect rc x y) := by
  unfold inRect; infer_instance

/-- `image.Rectangle.Intersect`: componentwise max of mins and min of maxs,
normalised to the zero rectangle `ZR` when empty. -/
def Rect.Intersect (rc s : Rect) : Rect :=
  let t : Rect := ⟨max rc.minX s.minX, max rc.minY s.minY,
                   min rc.maxX s.maxX, min rc.maxY s.maxY⟩
  if t.maxX ≤ t.minX ∨ t.maxY ≤ t.minY then ⟨0, 0, 0, 0⟩ else t

/-- `image.Rectangle.In(s)`: an empty rectangle is in every rectangle;
otherwise containment of both corners. -/
def Rect.In (rc s : Rect) : Prop :=
  (rc.maxX ≤ rc.minX ∨ rc.maxY ≤ rc.minY) ∨
    (s.minX ≤ rc.minX ∧ rc.maxX ≤ s.maxX ∧ s.minY ≤ rc.minY ∧ rc.maxY ≤ s.maxY)

instance (rc s : Rect) : Decidable (Rect.In rc s) := by
  unfold Rect.In; infer_instance

/-- `image.Rectangle.Dx`. -/
def Rect.Dx (rc : Rect) : ℤ := rc.maxX - rc.minX

/-- `image.Rectangle.Dy`. -/
def Rect.Dy (rc : Rect) : ℤ := rc.maxY - rc.minY

/-- An image: bounds, a color-model tag (Go compares `ColorModel()` values
for equality, so an opaque tag suffices) and a pixel grid. -/
structure Image where
  bounds : Rect
  model : ℕ
  px : ℤ → ℤ → Color

/-- `At`: inside the bounds the stored pixel, outside the zero color (as
the standard library image types report). -/
def Image.At (img : Image) (x y : ℤ) : Color :=
  if inRect img.bounds x y then img.px x y else zeroColor

/-- A `Set` that stores `conv c`, where `conv` is the conversion the
buffer's color model applies to an incoming color; out-of-bounds writes
are dropped, as in the standard library. -/
def Image.SetWith (img : Image) (conv : Color → Color) (x y : ℤ) (c : Color) : Image :=
  if inRect img.bounds x y then
    { img with px := fun u v => if u = x ∧ v = y then conv c else img.px u v }
  else img

/-- `draw.Image.Set` of a full-precision (16 bits per channel, e.g.
`image.RGBA64`) destination: stores the color's `RGBA()` channels, which
for our `Color` is the identity. -/
def Image.Set (img : Image) (x y : ℤ) (c : Color) : Image :=
  img.SetWith (fun col => col) x y c

/-- The conversion `image.RGBA` applies on `Set` followed by `At`: each
16-bit channel is truncated to its high byte and replicated
(`uint8(v >> 8)`, read back as `v8 | v8 << 8`). -/
def quantize8 (c : Color) : Color :=
  ⟨c.r / 256 * 257, c.g / 256 * 257, c.b / 256 * 257, c.a / 256 * 257⟩

/-- `Set` of an `image.RGBA` (8 bits per channel) buffer. -/
def Image.SetRGBA (img : Image) (x y : ℤ) (c : Color) : Image :=
  img.SetWith quantize8 x y c

/-- The color-model tag `image.NewRGBA` images report. -/
def rgbaModelTag : ℕ := 0

/-- `image.NewRGBA(r)`: an RGBA image with bounds `r`, all pixels zero. -/
def newRGBA (rc : Rect) : Image := ⟨rc, rgbaModelTag, fun _ _ => zeroColor⟩

/-- The integers of `[lo, hi)` in increasing order (a Go `for` range). -/
def intRange (lo hi : ℤ) : List ℤ :=
  (List.range (hi - lo).toNat).map (fun (i : ℕ) => lo + (i : ℤ))

/-- The coordinates a row-major loop nest (`for y ... for x ...`) visits,
in visiting order. -/
def loopPts (rc : Rect) : List (ℤ × ℤ) :=
  (intRange rc.minY rc.maxY).flatMap fun y =>
    (intRange rc.minX rc.maxX).map fun x => (x, y)

/-- The coordinates a column-major loop nest (`for x ... for y ...`)
visits, in visiting order. -/
def loopPtsCol (rc : Rect) : List (ℤ × ℤ) :=
  (intRange rc.minX rc.maxX).flatMap fun x =>
    (intRange rc.minY rc.maxY).map fun y => (x, y)

/-- `BlendImage` (blend.go lines 88-97, current revision): for each pixel
of the intersection of the two bounds, overwrite the destination in place
with `mode(dst.At(x,y), src.At(x,y))`.  No color-model or containment
check is performed.  The mutation is modelled by threading the destination
image through a fold over the visited coordinates. -/
def BlendImage (dst src : Image) (mode : BlendFunc) : Image :=
  let inter := dst.bounds.Intersect src.bounds
  (loopPts inter).foldl
    (fun d p => d.Set p.1 p.2 (mode (d.At p.1 p.2) (src.At p.1 p.2))) dst

/-- `BlendNewImage` (blend.go lines 103-122, current revision): builds a
fresh `image.NewRGBA(dst.Bounds())` and, for every coordinate of the
destination bounds, stores the blend when the point is in the intersection
and the destination pixel otherwise.  `dst` and `src` are only read. -/
def BlendNewImage (dst src : Image) (mode : BlendFunc) : Image :=
  let inter := dst.bounds.Intersect src.bounds
  (loopPts dst.bounds).foldl
    (fun img p =>
      img.SetRGBA p.1 p.2
        (if inRect inter p.1 p.2 then mode (dst.At p.1 p.2) (src.At p.1 p.2)
         else dst.At p.1 p.2))
    (newRGBA dst.bounds)

/-- `BlendError` (error.go). -/
structure BlendError where
  err : String
deriving DecidableEq

/-- `Blend` (blend.go lines 482-511, older revision; note the src-first
signature and mode argument order of that revision): rejects differing
color models, then rejects a source that does not fit inside the
destination, then builds a new RGBA image over `[0, Dx) x [0, Dy)`
(column-major loop), blending where the 0-based point lies in the source
bounds and copying the destination pixel elsewhere. -/
def Blend (src dst : Image) (mode : BlendFunc) : Except BlendError Image :=
  if src.model ≠ dst.model then
    .error ⟨"Top layer(src) and bot layer(dst) have different color models."⟩
  else if ¬ Rect.In src.bounds dst.bounds then
    .error ⟨"Top layer(src) does not fit into bottom layer(dst)."⟩
  else
    .ok ((loopPtsCol ⟨0, 0, dst.bounds.Dx, dst.bounds.Dy⟩).foldl
      (fun img p =>
        img.SetRGBA p.1 p.2
          (if inRect src.bounds p.1 p.2 then mode (src.At p.1 p.2) (dst.At p.1 p.2)
           else dst.At p.1 p.2))
      (newRGBA dst.bounds))

/-- `hslf64`: the HSL record used as an intermediate by the HSL-based
modes.  Modelled from the spec: the repository's HSL conversion source is
absent (color.go's `RGBtoHSL`/`HSLtoRGB` are empty stubs), so the record
and the conversions below follow the spec's data model (hue, saturation
and lightness on normalised scales). -/
structure hslf64 where
  h : ℚ
  s : ℚ
  l : ℚ
deriving DecidableEq

/-- Normalises a hue offset into `[0, 1]` (the sequential
`if t < 0 then t+1` / `if t > 1 then t-1` of the standard algorithm; after
the first branch the value is below 1, so the chain is equivalent). -/
def hueShift (t : ℚ) : ℚ :=
  if t < 0 then t + 1 else if t > 1 then t - 1 else t

/-- Modelled from the spec: the helper of the standard HSL-to-RGB
transform, evaluating one channel from the two chroma levels `p ≤ q` and a
hue offset `t`. -/
def hue2rgb (p q t0 : ℚ) : ℚ :=
  if hueShift t0 < 1/6 then p + (q - p) * 6 * hueShift t0
  else if hueShift t0 < 1/2 then q
  else if hueShift t0 < 2/3 then p + (q - p) * (2/3 - hueShift t0) * 6
  else p

/-- Modelled from the spec: `rgbToHsl` on channels already normalised to
`[0, 1]` — the standard transform (lightness is the mid-range, saturation
the chroma over the appropriate denominator, hue the sector angle; an
achromatic color gets hue and saturation 0). -/
def rgb2hslQ (r g b : ℚ) : hslf64 :=
  let mx := max r (max g b)
  let mn := min r (min g b)
  let l := (mx + mn) / 2
  if mx = mn then ⟨0, 0, l⟩
  else
    let d := mx - mn
    let s := if 1/2 < l then d / (2 - mx - mn) else d / (mx + mn)
    let h := (if mx = r then (g - b) / d + (if g < b then 6 else 0)
              else if mx = g then (b - r) / d + 2
              else (r - g) / d + 4) / 6
    ⟨h, s, l⟩

/-- Modelled from the spec: the upper chroma level `q` of the standard
HSL-to-RGB transform. -/
def chromaHi (s l : ℚ) : ℚ := if l < 1/2 then l * (1 + s) else l + s - l * s

/-- Modelled from the spec: `hslToRgb` on normalised values — the inverse
standard transform; saturation 0 is the achromatic (gray) case.  The two
chroma levels are `q = chromaHi s l` and `p = 2*l - q`. -/
def hsl2rgbQ (h s l : ℚ) : ℚ × ℚ × ℚ :=
  if s = 0 then (l, l, l)
  else
    (hue2rgb (2 * l - chromaHi s l) (chromaHi s l) (h + 1/3),
     hue2rgb (2 * l - chromaHi s l) (chromaHi s l) h,
     hue2rgb (2 * l - chromaHi s l) (chromaHi s l) (h - 1/3))

/-- Modelled from the spec: `rgb2hsl` on a channel-native Color — scale the
RGB channels by `max` and convert (alpha is not part of the HSL record). -/
def rgb2hsl (c : Color) : hslf64 :=
  let col := color2rgbaf64 c
  rgb2hslQ (col.r / maxq) (col.g / maxq) (col.b / maxq)

/-- Modelled from the spec: `hsl2rgb` back to a channel-native Color,
scaling by `max` and rounding through `float64ToUint16` (the spec leaves
the alpha of the reconstructed color to the caller; `max` is used here). -/
def hsl2rgb (h s l : ℚ) : Color :=
  let t := hsl2rgbQ h s l
  (rgbaf64.mk (t.1 * maxq) (t.2.1 * maxq) (t.2.2 * maxq) maxq).RGBA

/-! ### Concrete fixtures for counterexamples and witnesses -/

/-- A 1x1 white destination tagged with color model 0. -/
def exDstC1 : Image := ⟨⟨0, 0, 1, 1⟩, 0, fun _ _ => ⟨65535, 65535, 65535, 65535⟩⟩

/-- A 1x1 black source tagged with the *different* color model 1. -/
def exSrcC1 : Image := ⟨⟨0, 0, 1, 1⟩, 1, fun _ _ => ⟨0, 0, 0, 65535⟩⟩

/-- A 1x1 destination whose pixel (0x1234 red) is not 8-bit replicated. -/
def exDstC2 : Image := ⟨⟨0, 0, 1, 1⟩, 0, fun _ _ => ⟨4660, 0, 0, 65535⟩⟩

/-- A source whose bounds do not meet `exDstC2`'s. -/
def exSrcC2 : Image := ⟨⟨1, 1, 2, 2⟩, 0, fun _ _ => ⟨0, 0, 0, 65535⟩⟩

/-- A 1x1 white destination for the compositor-agreement witness. -/
def exDstC9 : Image := ⟨⟨0, 0, 1, 1⟩, 0, fun _ _ => ⟨65535, 65535, 65535, 65535⟩⟩

/-- A 1x1 black source overlapping `exDstC9`. -/
def exSrcC9 : Image := ⟨⟨0, 0, 1, 1⟩, 0, fun _ _ => ⟨0, 0, 0, 65535⟩⟩

/-- Destination color for the alpha counterexample (opaque gray). -/
def exDstC4 : Color := ⟨100, 100, 100, 65535⟩

/-- Source color for the alpha counterexample (transparent black; its
channel sum 0 is not larger than the destination's 300). -/
def exSrcC4 : Color := ⟨0, 0, 0, 0⟩

/-! ### Helper lemmas -/

/-- Rounding a 16-bit integer through `float64ToUint16` is the identity. -/
lemma float64ToUint16_natCast (n : ℕ) (h : n ≤ 65535) :
    float64ToUint16 (n : ℚ) = n := by
  unfold float64ToUint16
  rw [if_neg (not_lt.mpr (by positivity)),
      if_neg (not_lt.mpr (by exact_mod_cast h))]
  have hfl : ⌊(n : ℚ) + 1/2⌋ = (n : ℤ) := by
    rw [Int.floor_eq_iff]
    constructor
    · push_cast; linarith
    · push_cast; linarith
  rw [hfl, Int.toNat_natCast]

lemma mem_intRange {lo hi x : ℤ} : x ∈ intRange lo hi ↔ lo ≤ x ∧ x < hi := by
  unfold intRange
  rw [List.mem_map]
  constructor
  · rintro ⟨i, hmem, heq⟩
    rw [List.mem_range] at hmem
    omega
  · rintro ⟨h1, h2⟩
    refine ⟨(x - lo).toNat, ?_, ?_⟩
    · rw [List.mem_range]; omega
    · omega

lemma nodup_intRange (lo hi : ℤ) : (intRange lo hi).Nodup := by
  unfold intRange
  refine List.Nodup.map ?_ (List.nodup_range _)
  intro a b hab
  have h2 : lo + (a : ℤ) = lo + (b : ℤ) := hab
  omega

lemma mem_loopPts {rc : Rect} {p : ℤ × ℤ} :
    p ∈ loopPts rc ↔ inRect rc p.1 p.2 := by
  unfold loopPts inRect
  simp only [List.mem_flatMap, List.mem_map, mem_intRange]
  constructor
  · rintro ⟨y, hy, x, hx, rfl⟩
    exact ⟨hx, hy⟩
  · rintro ⟨hx, hy⟩
    exact ⟨p.2, hy, p.1, hx, rfl⟩

lemma nodup_loopPts (rc : Rect) : (loopPts rc).Nodup := by
  unfold loopPts
  rw [List.nodup_flatMap]
  refine ⟨fun y _ => ?_, ?_⟩
  · refine List.Nodup.map ?_ (nodup_intRange _ _)
    intro a b hab
    exact congrArg Prod.fst hab
  · refine List.Pairwise.imp ?_ (nodup_intRange rc.minY rc.maxY)
    intro y1 y2 hne
    rw [Function.onFun, List.disjoint_left]
    rintro p hp1 hp2
    rw [List.mem_map] at hp1 hp2
    obtain ⟨x1, _, h1⟩ := hp1
    obtain ⟨x2, _, h2⟩ := hp2
    exact hne (congrArg Prod.snd (h1.trans h2.symm))

lemma SetWith_bounds (img : Image) (conv : Color → Color) (x y : ℤ) (c : Color) :
    (img.SetWith conv x y c).bounds = img.bounds := by
  unfold Image.SetWith
  split <;> rfl

lemma SetWith_model (img : Image) (conv : Color → Color) (x y : ℤ) (c : Color) :
    (img.SetWith conv x y c).model = img.model := by
  unfold Image.SetWith
  split <;> rfl

lemma SetWith_At_self (img : Image) (conv : Color → Color) (x y : ℤ) (c : Color) :
    (img.SetWith conv x y c).At x y =
      if inRect img.bounds x y then conv c else img.At x y := by
  unfold Image.SetWith Image.At
  by_cases h : inRect img.bounds x y
  · simp [h]
  · simp [h]

lemma SetWith_At_ne (img : Image) (conv : Color → Color) (x y u v : ℤ) (c : Color)
    (h : ¬(u = x ∧ v = y)) :
    (img.SetWith conv x y c).At u v = img.At u v := by
  unfold Image.SetWith Image.At
  by_cases hb : inRect img.bounds x y
  · simp only [if_pos hb]
    by_cases hu : inRect img.bounds u v
    · simp [hu, h]
    · simp [hu]
  · simp [hb]

/-- Characterisation of one blend pass: folding writes over a duplicate-free
coordinate list, where the value written at a coordinate may depend on the
current image only through its pixel at that same coordinate.  Every listed
in-bounds coordinate ends up holding the converted value computed from the
*initial* image (each coordinate is written at most once), and every other
coordinate is untouched. -/
lemma foldSet_At (conv : Color → Color) (f : Color → ℤ → ℤ → Color) :
    ∀ (L : List (ℤ × ℤ)), L.Nodup → ∀ (init : Image) (x y : ℤ),
      (L.foldl (fun d p => d.SetWith conv p.1 p.2 (f (d.At p.1 p.2) p.1 p.2)) init).At x y =
        if (x, y) ∈ L ∧ inRect init.bounds x y
        then conv (f (init.At x y) x y) else init.At x y := by
  intro L
  induction L with
  | nil =>
    intro _ init x y
    simp
  | cons p0 L ih =>
    intro hnd init x y
    have hnd' : L.Nodup := hnd.of_cons
    have hp0 : p0 ∉ L := (List.nodup_cons.mp hnd).1
    rw [List.foldl_cons]
    set init1 := init.SetWith conv p0.1 p0.2 (f (init.At p0.1 p0.2) p0.1 p0.2) with hinit1
    have hbnd : init1.bounds = init.bounds := SetWith_bounds _ _ _ _ _
    rw [ih hnd' init1 x y, hbnd]
    by_cases hmem : (x, y) ∈ L
    · have hne : ¬(x = p0.1 ∧ y = p0.2) := by
        rintro ⟨rfl, rfl⟩
        exact hp0 hmem
      rw [SetWith_At_ne _ _ _ _ _ _ _ hne]
      by_cases hb : inRect init.bounds x y
      · simp [List.mem_cons, hmem, hb]
      · simp [List.mem_cons, hmem, hb]
    · by_cases hp : x = p0.1 ∧ y = p0.2
      · obtain ⟨rfl, rfl⟩ := hp
        rw [SetWith_At_self]
        have hmemc : ((p0.1, p0.2) : ℤ × ℤ) ∈ p0 :: L := List.mem_cons_self _ _
        by_cases hb : inRect init.bounds p0.1 p0.2
        · simp [hmem, hmemc, hb]
        · simp [hmem, hmemc, hb]
      · rw [SetWith_At_ne _ _ _ _ _ _ _ hp]
        have hnotin : ((x, y) : ℤ × ℤ) ∉ p0 :: L := by
          rw [List.mem_cons]
          rintro (hc | hc)
          · exact hp ⟨congrArg Prod.fst hc, congrArg Prod.snd hc⟩
          · exact hmem hc
        simp [hmem, hnotin]

lemma foldSet_bounds (conv : Color → Color) (f : Color → ℤ → ℤ → Color) :
    ∀ (L : List (ℤ × ℤ)) (init : Image),
      (L.foldl (fun d p => d.SetWith conv p.1 p.2 (f (d.At p.1 p.2) p.1 p.2)) init).bounds =
        init.bounds := by
  intro L
  induction L with
  | nil => intro init; rfl
  | cons p0 L ih =>
    intro init
    rw [List.foldl_cons, ih, SetWith_bounds]

lemma foldSet_model (conv : Color → Color) (f : Color → ℤ → ℤ → Color) :
    ∀ (L : List (ℤ × ℤ)) (init : Image),
      (L.foldl (fun d p => d.SetWith conv p.1 p.2 (f (d.At p.1 p.2) p.1 p.2)) init).model =
        init.model := by
  intro L
  induction L with
  | nil => intro init; rfl
  | cons p0 L ih =>
    intro init
    rw [List.foldl_cons, ih, SetWith_model]

/-- A point of the intersection lies in the left rectangle. -/
lemma inRect_Intersect_left {rc s : Rect} {x y : ℤ}
    (h : inRect (rc.Intersect s) x y) : inRect rc x y := by
  simp only [Rect.Intersect] at h
  unfold inRect at h ⊢
  split at h
  · dsimp only at h
    omega
  · dsimp only at h
    omega

/-- Pointwise description of `BlendImage`: exactly the intersection pixels
hold the blend of the *original* destination pixel with the source pixel
(each coordinate is written once, so later iterations read only unwritten
pixels); everything else is untouched. -/
lemma BlendImage_At (dst src : Image) (mode : BlendFunc) (x y : ℤ) :
    (BlendImage dst src mode).At x y =
      if inRect (dst.bounds.Intersect src.bounds) x y
      then mode (dst.At x y) (src.At x y) else dst.At x y := by
  unfold BlendImage
  simp only [Image.Set]
  have h := foldSet_At (fun col => col) (fun c u v => mode c (src.At u v))
    (loopPts (dst.bounds.Intersect src.bounds)) (nodup_loopPts _) dst x y
  simp only [] at h
  rw [h]
  by_cases hin : inRect (dst.bounds.Intersect src.bounds) x y
  · rw [if_pos ⟨mem_loopPts.mpr hin, inRect_Intersect_left hin⟩, if_pos hin]
  · rw [if_neg (fun hc => hin (mem_loopPts.mp hc.1)), if_neg hin]

lemma BlendImage_bounds (dst src : Image) (mode : BlendFunc) :
    (BlendImage dst src mode).bounds = dst.bounds := by
  unfold BlendImage
  simp only [Image.Set]
  exact foldSet_bounds (fun col => col) (fun c u v => mode c (src.At u v)) _ dst

lemma BlendImage_model (dst src : Image) (mode : BlendFunc) :
    (BlendImage dst src mode).model = dst.model := by
  unfold BlendImage
  simp only [Image.Set]
  exact foldSet_model (fun col => col) (fun c u v => mode c (src.At u v)) _ dst

lemma quantize8_zero : quantize8 zeroColor = zeroColor := rfl

/-- Pointwise description of `BlendNewImage`: the result has the
destination's bounds; inside the intersection it stores the blend and
elsewhere the destination pixel, both through the 8-bit RGBA buffer's
channel quantisation. -/
lemma BlendNewImage_At (dst src : Image) (mode : BlendFunc) (x y : ℤ) :
    (BlendNewImage dst src mode).At x y =
      if inRect (dst.bounds.Intersect src.bounds) x y
      then quantize8 (mode (dst.At x y) (src.At x y))
      else quantize8 (dst.At x y) := by
  unfold BlendNewImage
  simp only [Image.SetRGBA]
  have h := foldSet_At quantize8
    (fun _ u v =>
      if inRect (dst.bounds.Intersect src.bounds) u v
      then mode (dst.At u v) (src.At u v) else dst.At u v)
    (loopPts dst.bounds) (nodup_loopPts _) (newRGBA dst.bounds) x y
  simp only [] at h
  rw [h]
  have hAtZero : (newRGBA dst.bounds).At x y = zeroColor := by
    unfold newRGBA Image.At
    split <;> rfl
  by_cases hb : inRect dst.bounds x y
  · rw [if_pos ⟨mem_loopPts.mpr hb, hb⟩, apply_ite quantize8]
  · have hni : ¬ inRect (dst.bounds.Intersect src.bounds) x y :=
      fun hc => hb (inRect_Intersect_left hc)
    rw [if_neg (fun hc => hb hc.2), if_neg hni, hAtZero]
    have hdst : dst.At x y = zeroColor := by
      unfold Image.At
      rw [if_neg hb]
    rw [hdst, quantize8_zero]

lemma BlendNewImage_bounds (dst src : Image) (mode : BlendFunc) :
    (BlendNewImage dst src mode).bounds = dst.bounds := by
  unfold BlendNewImage
  simp only [Image.SetRGBA]
  exact foldSet_bounds quantize8
    (fun _ u v =>
      if inRect (dst.bounds.Intersect src.bounds) u v
      then mode (dst.At u v) (src.At u v) else dst.At u v)
    (loopPts dst.bounds) (newRGBA dst.bounds)

/-- The alpha slot of a per-channel blend is the destination's alpha. -/
lemma blendPerChannel_RGBA_a (dst src : Color) (bf : ℚ → ℚ → ℚ)
    (h : dst.a ≤ 65535) :
    ((blendPerChannel dst src bf).RGBA).a = dst.a := by
  unfold blendPerChannel rgbaf64.RGBA color2rgbaf64
  exact float64ToUint16_natCast dst.a h

/-! ### Claims -/

/-- C1 (amended): only the older `Blend` entry point checks color models:
for every pair of images whose color-model tags differ it fails with
`BlendError` carrying the incompatible-color-model message and returns no
image, hence nothing is modified; the current `BlendImage` /
`BlendNewImage` perform no such check (see the counterexample). -/
theorem claim_C1_blend_rejects_model_mismatch (src dst : Image) (mode : BlendFunc)
    (h : src.model ≠ dst.model) :
    Blend src dst mode =
      Except.error ⟨"Top layer(src) and bot layer(dst) have different color models."⟩ := by
  unfold Blend
  rw [if_pos h]

theorem claim_C1_blend_rejects_model_mismatch_witness :
    exSrcC1.model ≠ exDstC1.model ∧
    Blend exSrcC1 exDstC1 Darken =
      Except.error ⟨"Top layer(src) and bot layer(dst) have different color models."⟩ :=
  ⟨by decide, claim_C1_blend_rejects_model_mismatch exSrcC1 exDstC1 Darken (by decide)⟩

/-- C1 counterexample: the mutating compositor `BlendImage` performs no
color-model check at all — on a concrete pair of 1x1 images with
*different* model tags it proceeds to blend and changes the destination
pixel, contradicting "fails ... before any pixel is touched". -/
theorem claim_C1_counterexample :
    exDstC1.model ≠ exSrcC1.model ∧
    (BlendImage exDstC1 exSrcC1 Darken).At 0 0 ≠ exDstC1.At 0 0 := by
  refine ⟨by decide, ?_⟩
  rw [BlendImage_At]
  norm_num [exDstC1, exSrcC1, Rect.Intersect, inRect, Image.At, Darken,
    blendPerChannel, color2rgbaf64, darken, rgbaf64.RGBA, float64ToUint16]

/-- C2 (amended): the non-mutating composite returns an image with the
destination's bounds; inside the intersection each pixel is the blended
combination of the two pixels and outside it the destination's pixel —
but both pass through the result's 8-bit-per-channel RGBA buffer
(`image.NewRGBA`), so each stored 16-bit channel `v` is `(v / 256) * 257`;
pixels equal the destination's originals only up to that quantisation
(exactly, when the destination's channels are 8-bit replicated).  The
inputs are only read (`BlendNewImage` is a pure function of them). -/
theorem claim_C2_blendNewImage_pointwise (dst src : Image) (mode : BlendFunc) :
    (BlendNewImage dst src mode).bounds = dst.bounds ∧
    ∀ x y : ℤ,
      (BlendNewImage dst src mode).At x y =
        if inRect (dst.bounds.Intersect src.bounds) x y
        then quantize8 (mode (dst.At x y) (src.At x y))
        else quantize8 (dst.At x y) :=
  ⟨BlendNewImage_bounds dst src mode, fun x y => BlendNewImage_At dst src mode x y⟩

/-- C2 counterexample: (0,0) is in the destination's bounds and outside
the (empty) intersection, yet the result pixel is not equal to the
destination's original pixel: the 16-bit red channel 0x1234 comes back as
0x1212 from the 8-bit result buffer. -/
theorem claim_C2_counterexample :
    inRect exDstC2.bounds 0 0 ∧
    ¬ inRect (exDstC2.bounds.Intersect exSrcC2.bounds) 0 0 ∧
    (BlendNewImage exDstC2 exSrcC2 Darken).At 0 0 ≠ exDstC2.At 0 0 := by
  refine ⟨by decide, by decide, ?_⟩
  rw [BlendNewImage_At]
  norm_num [exDstC2, exSrcC2, Rect.Intersect, inRect, Image.At, quantize8]

/-- C3: the mutating composite overwrites exactly the pixels in the
intersection of the two bounds with the blend of the original destination
pixel and the source pixel, leaves every other pixel untouched, and keeps
the destination's bounds and color model. -/
theorem claim_C3_blendImage_pointwise (dst src : Image) (mode : BlendFunc) (x y : ℤ) :
    (BlendImage dst src mode).bounds = dst.bounds ∧
    (BlendImage dst src mode).model = dst.model ∧
    (BlendImage dst src mode).At x y =
      (if inRect (dst.bounds.Intersect src.bounds) x y
       then mode (dst.At x y) (src.At x y) else dst.At x y) :=
  ⟨BlendImage_bounds dst src mode, BlendImage_model dst src mode,
    BlendImage_At dst src mode x y⟩

/-- C4 counterexample: `DarkerColor` can return the *source* color
wholesale; on a concrete pair its result alpha is the source's 0, not the
destination's 65535 — so not every library mode takes alpha from the
destination. -/
theorem claim_C4_counterexample :
    (DarkerColor exDstC4 exSrcC4).a ≠ exDstC4.a := by
  norm_num [DarkerColor, exDstC4, exSrcC4, color2rgbaf64]

/-- C4 (amended): every per-channel mode (all modes built on
`blendPerChannel`) takes the alpha channel verbatim from the destination;
the whole-color comparative modes `DarkerColor` and `LighterColor`
instead return one of the two input colors unmodified — hence the
source's alpha whenever the source is selected. -/
theorem claim_C4_alpha_from_destination (bf : ℚ → ℚ → ℚ) (dst src : Color)
    (h : dst.a ≤ 65535) :
    ((blendPerChannel dst src bf).RGBA).a = dst.a ∧
    (DarkerColor dst src = dst ∨ DarkerColor dst src = src) ∧
    (LighterColor dst src = dst ∨ LighterColor dst src = src) := by
  refine ⟨blendPerChannel_RGBA_a dst src bf h, ?_, ?_⟩
  · simp only [DarkerColor, color2rgbaf64]
    split
    · exact Or.inl rfl
    · exact Or.inr rfl
  · simp only [LighterColor, color2rgbaf64]
    split
    · exact Or.inr rfl
    · exact Or.inl rfl

theorem claim_C4_alpha_from_destination_witness :
    (40000 : ℕ) ≤ 65535 ∧
    (((blendPerChannel ⟨1, 2, 3, 40000⟩ ⟨5, 6, 7, 8⟩ darken).RGBA).a =
        (Color.mk 1 2 3 40000).a ∧
      (DarkerColor ⟨1, 2, 3, 40000⟩ ⟨5, 6, 7, 8⟩ = ⟨1, 2, 3, 40000⟩ ∨
        DarkerColor ⟨1, 2, 3, 40000⟩ ⟨5, 6, 7, 8⟩ = ⟨5, 6, 7, 8⟩) ∧
      (LighterColor ⟨1, 2, 3, 40000⟩ ⟨5, 6, 7, 8⟩ = ⟨1, 2, 3, 40000⟩ ∨
        LighterColor ⟨1, 2, 3, 40000⟩ ⟨5, 6, 7, 8⟩ = ⟨5, 6, 7, 8⟩)) :=
  ⟨by norm_num,
    claim_C4_alpha_from_destination darken ⟨1, 2, 3, 40000⟩ ⟨5, 6, 7, 8⟩ (by norm_num)⟩

/-- C5 counterexample: on destination channel 100 and source channel
65535 (both values at which the float64 computation is exact), the code's
Divide channel function yields 101, not the specified
`d*max/s = 100*65535/65535 = 100`. -/
theorem claim_C5_counterexample :
    divide 100 65535 = 101 ∧ (100 : ℚ) * 65535 / 65535 = 100 ∧
    divide 100 65535 ≠ (100 : ℚ) * 65535 / 65535 := by
  norm_num [divide, maxq]

/-- C5 (amended): the Divide channel function computes `d*max/s + 1.0` —
the revision in blend.go carries a `+ 1.0` offset — and therefore (in
exact arithmetic) never equals the specified `d*max/s`. -/
theorem claim_C5_divide_offset (d s : ℚ) (_hd0 : 0 ≤ d) (_hd1 : d ≤ 65535)
    (_hs0 : s ≠ 0) (_hs1 : s ≤ 65535) :
    divide d s = d * maxq / s + 1 ∧ divide d s ≠ d * maxq / s := by
  refine ⟨rfl, ?_⟩
  unfold divide
  intro hc
  have h1 : (1 : ℚ) = 0 := by linarith
  norm_num at h1

theorem claim_C5_divide_offset_witness :
    ((0 : ℚ) ≤ 100 ∧ (100 : ℚ) ≤ 65535 ∧ (65535 : ℚ) ≠ 0 ∧ (65535 : ℚ) ≤ 65535) ∧
    (divide 100 65535 = 100 * maxq / 65535 + 1 ∧
      divide 100 65535 ≠ 100 * maxq / 65535) := by
  refine ⟨by norm_num, ?_⟩
  exact claim_C5_divide_offset 100 65535 (by norm_num) (by norm_num) (by norm_num) (by norm_num)

/-- C6 counterexample: at destination 65535, source 100 (s < mid; all
float64-exact values) the code returns `colorBurn(2*s, d) = 200`, while
the claimed `ColorBurn(d, 2*s)` (destination first) would give 65535. -/
theorem claim_C6_counterexample :
    vividLight 65535 100 = 200 ∧ colorBurn 65535 (2 * 100) = 65535 ∧
    vividLight 65535 100 ≠ colorBurn 65535 (2 * 100) := by
  norm_num [vividLight, colorBurn, colorDodge, midq, maxq]

/-- C6 (amended): `vividLight` places the doubled source value in the
*destination* slot of `colorBurn`/`colorDodge` and the destination value
in the *source* slot — the reverse of the claimed argument order — so for
`s < mid` it computes `colorBurn(2*s, d)`, i.e. 0 when `d = 0` and
`max(0, max - (max - 2*s)*max/d)` otherwise, and for `s ≥ mid` it
computes `colorDodge(2*(s-mid), d)`, i.e. `max` when `d = max` and
`min(max, 2*(s-mid)*max/(max-d))` otherwise. -/
theorem claim_C6_vividLight_argument_order (d s : ℚ) :
    vividLight d s =
      if s < midq then
        (if d = 0 then 0 else max 0 (maxq - (maxq - 2 * s) * maxq / d))
      else
        (if d = maxq then maxq else min maxq (2 * (s - midq) * maxq / (maxq - d))) := by
  unfold vividLight colorBurn colorDodge
  by_cases hs : s < midq
  · rw [if_pos hs, if_pos hs]
    by_cases hd : d = 0
    · rw [if_pos hd, if_pos hd]
      exact hd
    · rw [if_neg hd, if_neg hd]
  · rw [if_neg hs, if_neg hs]
    by_cases hd : d = maxq
    · rw [if_pos hd, if_pos hd]
      exact hd
    · rw [if_neg hd, if_neg hd]

/-- C7: converting a channel-native color (all channels in `[0, 65535]`)
to the floating-point record and back through `RGBA()` is the identity. -/
theorem claim_C7_float_roundtrip (c : Color) (hr : c.r ≤ 65535) (hg : c.g ≤ 65535)
    (hb : c.b ≤ 65535) (ha : c.a ≤ 65535) :
    (color2rgbaf64 c).RGBA = c := by
  unfold color2rgbaf64 rgbaf64.RGBA
  cases c with
  | mk r g b a =>
    dsimp only at hr hg hb ha ⊢
    rw [float64ToUint16_natCast r hr, float64ToUint16_natCast g hg,
      float64ToUint16_natCast b hb, float64ToUint16_natCast a ha]

theorem claim_C7_float_roundtrip_witness :
    ((4660 : ℕ) ≤ 65535 ∧ (0 : ℕ) ≤ 65535 ∧ (65535 : ℕ) ≤ 65535 ∧ (1 : ℕ) ≤ 65535) ∧
    (color2rgbaf64 ⟨4660, 0, 65535, 1⟩).RGBA = ⟨4660, 0, 65535, 1⟩ :=
  ⟨by norm_num,
    claim_C7_float_roundtrip ⟨4660, 0, 65535, 1⟩ (by norm_num) (by norm_num)
      (by norm_num) (by norm_num)⟩

/-- C9: at every coordinate of the intersection the two compositor entry
points apply the mode to the same pair — the destination's original pixel
and the source's pixel — so the color the mutating composite writes is
exactly the color the non-mutating composite assigns there; the mutating
destination stores it as is, while the non-mutating result buffer stores
its 8-bit quantisation. -/
theorem claim_C9_compositors_agree (dst src : Image) (mode : BlendFunc) (x y : ℤ)
    (h : inRect (dst.bounds.Intersect src.bounds) x y) :
    (BlendImage dst src mode).At x y = mode (dst.At x y) (src.At x y) ∧
    (BlendNewImage dst src mode).At x y = quantize8 (mode (dst.At x y) (src.At x y)) := by
  rw [BlendImage_At, BlendNewImage_At, if_pos h, if_pos h]
  exact ⟨rfl, rfl⟩

theorem claim_C9_compositors_agree_witness :
    inRect (exDstC9.bounds.Intersect exSrcC9.bounds) 0 0 ∧
    ((BlendImage exDstC9 exSrcC9 Darken).At 0 0 =
        Darken (exDstC9.At 0 0) (exSrcC9.At 0 0) ∧
      (BlendNewImage exDstC9 exSrcC9 Darken).At 0 0 =
        quantize8 (Darken (exDstC9.At 0 0) (exSrcC9.At 0 0))) :=
  ⟨by decide, claim_C9_compositors_agree exDstC9 exSrcC9 Darken 0 0 (by decide)⟩

/-- C10: on colors with exactly equal r+g+b sums, `DarkerColor` returns
the source and `LighterColor` returns the destination (the strict `>`
comparison fails on a tie, so the two modes break ties in opposite
directions). -/
theorem claim_C10_tie_breaking (dst src : Color)
    (h : src.r + src.g + src.b = dst.r + dst.g + dst.b) :
    DarkerColor dst src = src ∧ LighterColor dst src = dst := by
  have hq : ((src.r : ℚ) + src.g + src.b) = ((dst.r : ℚ) + dst.g + dst.b) := by
    exact_mod_cast h
  have hngt : ¬(((src.r : ℚ) + src.g + src.b) > ((dst.r : ℚ) + dst.g + dst.b)) := by
    rw [hq]
    exact lt_irrefl _
  simp only [DarkerColor, LighterColor, color2rgbaf64]
  rw [if_neg hngt, if_neg hngt]
  exact ⟨rfl, rfl⟩

theorem claim_C10_tie_breaking_witness :
    (3 + 2 + 1 : ℕ) = 1 + 2 + 3 ∧
    (DarkerColor ⟨1, 2, 3, 9⟩ ⟨3, 2, 1, 7⟩ = ⟨3, 2, 1, 7⟩ ∧
      LighterColor ⟨1, 2, 3, 9⟩ ⟨3, 2, 1, 7⟩ = ⟨1, 2, 3, 9⟩) :=
  ⟨by norm_num, claim_C10_tie_breaking ⟨1, 2, 3, 9⟩ ⟨3, 2, 1, 7⟩ (by norm_num)⟩

/-! ### HSL round trip (for C8) -/

lemma hueShift_id {t : ℚ} (h0 : 0 ≤ t) (h1 : t ≤ 1) : hueShift t = t := by
  unfold hueShift
  rw [if_neg (not_lt.mpr h0), if_neg (not_lt.mpr h1)]

lemma hueShift_neg {t : ℚ} (h : t < 0) : hueShift t = t + 1 := by
  unfold hueShift
  rw [if_pos h]

lemma hueShift_gt {t : ℚ} (h : 1 < t) : hueShift t = t - 1 := by
  unfold hueShift
  rw [if_neg (not_lt.mpr (by linarith)), if_pos h]

lemma hue2rgb_seg1 (p q : ℚ) {t : ℚ} (h0 : 0 ≤ t) (h1 : t < 1/6) :
    hue2rgb p q t = p + (q - p) * 6 * t := by
  unfold hue2rgb
  rw [hueShift_id h0 (by linarith), if_pos h1]

lemma hue2rgb_flat_q (p q : ℚ) {t : ℚ} (h0 : 1/6 ≤ t) (h1 : t < 1/2) :
    hue2rgb p q t = q := by
  unfold hue2rgb
  rw [hueShift_id (by linarith) (by linarith),
    if_neg (not_lt.mpr h0), if_pos h1]

lemma hue2rgb_seg3 (p q : ℚ) {t : ℚ} (h0 : 1/2 ≤ t) (h1 : t < 2/3) :
    hue2rgb p q t = p + (q - p) * (2/3 - t) * 6 := by
  unfold hue2rgb
  rw [hueShift_id (by linarith) (by linarith),
    if_neg (not_lt.mpr (by linarith)), if_neg (not_lt.mpr h0), if_pos h1]

lemma hue2rgb_flat_p (p q : ℚ) {t : ℚ} (h0 : 2/3 ≤ t) (h1 : t ≤ 1) :
    hue2rgb p q t = p := by
  unfold hue2rgb
  rw [hueShift_id (by linarith) h1,
    if_neg (not_lt.mpr (by linarith)), if_neg (not_lt.mpr (by linarith)),
    if_neg (not_lt.mpr h0)]

lemma hue2rgb_neg_flat_p (p q : ℚ) {t : ℚ} (h0 : -1/3 ≤ t) (h1 : t < 0) :
    hue2rgb p q t = p := by
  unfold hue2rgb
  rw [hueShift_neg h1,
    if_neg (not_lt.mpr (by linarith)), if_neg (not_lt.mpr (by linarith)),
    if_neg (not_lt.mpr (by linarith))]

lemma hue2rgb_gt_seg1 (p q : ℚ) {t : ℚ} (h0 : 1 < t) (h1 : t < 7/6) :
    hue2rgb p q t = p + (q - p) * 6 * (t - 1) := by
  unfold hue2rgb
  rw [hueShift_gt h0, if_pos (by linarith)]

lemma hue2rgb_gt_flat_q (p q : ℚ) {t : ℚ} (h0 : 7/6 ≤ t) (h1 : t < 3/2) :
    hue2rgb p q t = q := by
  unfold hue2rgb
  rw [hueShift_gt (by linarith),
    if_neg (not_lt.mpr (by linarith)), if_pos (by linarith)]

/-- On the lightness and saturation `rgb2hslQ` computes from a chromatic
pair `mn < mx`, the upper chroma level of the inverse transform is
exactly `mx`. -/
lemma chromaHi_eq_mx (mx mn s : ℚ) (h0 : 0 ≤ mn) (hlt : mn < mx) (h1 : mx ≤ 1)
    (hs : s = if 1/2 < (mx + mn) / 2 then (mx - mn) / (2 - mx - mn)
              else (mx - mn) / (mx + mn)) :
    chromaHi s ((mx + mn) / 2) = mx := by
  have hd : (0 : ℚ) < mx - mn := by linarith
  have hden2 : (0 : ℚ) < 2 - mx - mn := by linarith
  have hsum : (0 : ℚ) < mx + mn := by linarith
  unfold chromaHi
  rcases lt_trichotomy ((mx + mn) / 2) (1/2 : ℚ) with hc | hc | hc
  · rw [if_pos hc, hs, if_neg (not_lt.mpr (by linarith))]
    field_simp
    ring
  · rw [if_neg (not_lt.mpr (by linarith)), hs, if_neg (not_lt.mpr (by linarith))]
    have hsum1 : mx + mn = 1 := by linarith
    rw [hsum1]
    norm_num
    linarith
  · rw [if_neg (not_lt.mpr (by linarith)), hs, if_pos hc]
    field_simp
    ring

/-- The saturation `rgb2hslQ` computes from a chromatic pair is nonzero. -/
lemma chromaS_pos (mx mn s : ℚ) (h0 : 0 ≤ mn) (hlt : mn < mx) (h1 : mx ≤ 1)
    (hs : s = if 1/2 < (mx + mn) / 2 then (mx - mn) / (2 - mx - mn)
              else (mx - mn) / (mx + mn)) :
    0 < s := by
  have hd : (0 : ℚ) < mx - mn := by linarith
  rw [hs]
  split_ifs
  · exact div_pos hd (by linarith)
  · exact div_pos hd (by linarith)

/-- In the chromatic case, `hsl2rgbQ` evaluates the three channels with
`p = mn` and `q = mx`. -/
lemma hsl2rgbQ_chromatic (mx mn s h : ℚ) (h0 : 0 ≤ mn) (hlt : mn < mx) (h1 : mx ≤ 1)
    (hs : s = if 1/2 < (mx + mn) / 2 then (mx - mn) / (2 - mx - mn)
              else (mx - mn) / (mx + mn)) :
    hsl2rgbQ h s ((mx + mn) / 2) =
      (hue2rgb mn mx (h + 1/3), hue2rgb mn mx h, hue2rgb mn mx (h - 1/3)) := by
  have hspos := chromaS_pos mx mn s h0 hlt h1 hs
  have hq := chromaHi_eq_mx mx mn s h0 hlt h1 hs
  unfold hsl2rgbQ
  rw [if_neg (ne_of_gt hspos), hq,
    show 2 * ((mx + mn) / 2) - mx = mn from by ring]

/-- The HSL round trip is exact on normalised rational channels: the
standard forward and inverse transforms are mutually inverse in exact
arithmetic, chromatic or not. -/
lemma hslQ_roundtrip (r g b : ℚ) (hr0 : 0 ≤ r) (hr1 : r ≤ 1) (hg0 : 0 ≤ g)
    (hg1 : g ≤ 1) (hb0 : 0 ≤ b) (hb1 : b ≤ 1) :
    hsl2rgbQ (rgb2hslQ r g b).h (rgb2hslQ r g b).s (rgb2hslQ r g b).l = (r, g, b) := by
  have hBr : min r (min g b) ≤ r := min_le_left _ _
  have hBg : min r (min g b) ≤ g := le_trans (min_le_right _ _) (min_le_left _ _)
  have hBb : min r (min g b) ≤ b := le_trans (min_le_right _ _) (min_le_right _ _)
  have hAr : r ≤ max r (max g b) := le_max_left _ _
  have hAg : g ≤ max r (max g b) := le_trans (le_max_left _ _) (le_max_right _ _)
  have hAb : b ≤ max r (max g b) := le_trans (le_max_right _ _) (le_max_right _ _)
  unfold rgb2hslQ
  by_cases hc : max r (max g b) = min r (min g b)
  · rw [if_pos hc]
    dsimp only
    unfold hsl2rgbQ
    rw [if_pos rfl]
    simp only [Prod.mk.injEq]
    refine ⟨by linarith, by linarith, by linarith⟩
  · rw [if_neg hc]
    dsimp only
    have hlt : min r (min g b) < max r (max g b) :=
      lt_of_le_of_ne (le_trans hBr hAr) (fun he => hc he.symm)
    have h0 : 0 ≤ min r (min g b) := le_min hr0 (le_min hg0 hb0)
    have h1 : max r (max g b) ≤ 1 := max_le hr1 (max_le hg1 hb1)
    rw [hsl2rgbQ_chromatic (max r (max g b)) (min r (min g b)) _ _ h0 hlt h1 rfl]
    by_cases hxr : max r (max g b) = r
    · -- the red channel is the maximum
      rw [if_pos hxr]
      have hgr : g ≤ r := hxr ▸ hAg
      have hbr : b ≤ r := hxr ▸ hAb
      rw [hxr]
      by_cases hgb : g < b
      · -- minimum is g; hue in [5/6, 1)
        have hmn : min r (min g b) = g := by
          rw [min_eq_left hgb.le, min_eq_right hgr]
        rw [if_pos hgb, hmn]
        have hrg : (0 : ℚ) < r - g := by linarith
        have hX1 : (g - b) / (r - g) < 0 :=
          div_neg_of_neg_of_pos (by linarith) hrg
        have hX0 : -1 ≤ (g - b) / (r - g) := by
          rw [le_div_iff₀ hrg]
          linarith
        simp only [Prod.mk.injEq]
        refine ⟨?_, ?_, ?_⟩
        · rw [hue2rgb_gt_flat_q g r (by linarith) (by linarith)]
        · rw [hue2rgb_flat_p g r (by linarith) (by linarith)]
        · rw [hue2rgb_seg3 g r (by linarith) (by linarith)]
          field_simp
          ring
      · -- minimum is b; hue in [0, 1/6]
        have hbg : b ≤ g := not_lt.mp hgb
        have hmn : min r (min g b) = b := by
          rw [min_eq_right hbg, min_eq_right hbr]
        rw [if_neg hgb, hmn, add_zero]
        have hbr' : b < r := by
          rw [hxr, hmn] at hlt
          exact hlt
        have hrb : (0 : ℚ) < r - b := by linarith
        have hX0 : 0 ≤ (g - b) / (r - b) :=
          div_nonneg (by linarith) hrb.le
        have hX1 : (g - b) / (r - b) ≤ 1 := (div_le_one hrb).mpr (by linarith)
        simp only [Prod.mk.injEq]
        by_cases hgr2 : g < r
        · have hX1' : (g - b) / (r - b) < 1 := (div_lt_one hrb).mpr (by linarith)
          refine ⟨?_, ?_, ?_⟩
          · rw [hue2rgb_flat_q b r (by linarith) (by linarith)]
          · rw [hue2rgb_seg1 b r (by linarith) (by linarith)]
            field_simp
          · rw [hue2rgb_neg_flat_p b r (by linarith) (by linarith)]
        · have hge : g = r := le_antisymm hgr (not_lt.mp hgr2)
          have hXe : (g - b) / (r - b) = 1 := by
            rw [hge, div_self (ne_of_gt hrb)]
          rw [hXe]
          refine ⟨?_, ?_, ?_⟩
          · rw [hue2rgb_seg3 b r (by norm_num) (by norm_num)]
            ring
          · rw [hue2rgb_flat_q b r (by norm_num) (by norm_num)]
            exact hge.symm
          · rw [hue2rgb_neg_flat_p b r (by norm_num) (by norm_num)]
    · rw [if_neg hxr]
      by_cases hxg : max r (max g b) = g
      · -- the green channel is the (strict over r) maximum
        rw [if_pos hxg]
        have hbg : b ≤ g := hxg ▸ hAb
        have hrg' : r ≤ g := hxg ▸ hAr
        have hrg : r < g :=
          lt_of_le_of_ne hrg' (fun he => hxr (hxg.trans he.symm))
        have hmgb : min g b = b := min_eq_right hbg
        rw [hxg]
        rcases lt_trichotomy b r with hbr | hbr | hbr
        · -- minimum is b; hue in (1/6, 1/3)
          have hmn : min r (min g b) = b := by
            rw [hmgb, min_eq_right hbr.le]
          rw [hmn]
          have hgb' : (0 : ℚ) < g - b := by linarith
          have hX1 : (b - r) / (g - b) < 0 :=
            div_neg_of_neg_of_pos (by linarith) hgb'
          have hX0 : -1 < (b - r) / (g - b) := by
            rw [lt_div_iff₀ hgb']
            linarith
          simp only [Prod.mk.injEq]
          refine ⟨?_, ?_, ?_⟩
          · rw [hue2rgb_seg3 b g (by linarith) (by linarith)]
            field_simp
            ring
          · rw [hue2rgb_flat_q b g (by linarith) (by linarith)]
          · rw [hue2rgb_neg_flat_p b g (by linarith) (by linarith)]
        · -- b = r: minimum is r (= b); hue is exactly 1/3
          have hmn : min r (min g b) = r := by
            rw [hmgb, ← hbr, min_self]
          rw [hmn, hbr]
          have hXe : (r - r) / (g - r) = 0 := by
            rw [sub_self, zero_div]
          rw [hXe, zero_add]
          simp only [Prod.mk.injEq]
          refine ⟨?_, ?_, ?_⟩
          · rw [hue2rgb_flat_p r g (by norm_num) (by norm_num)]
          · rw [hue2rgb_flat_q r g (by norm_num) (by norm_num)]
          · rw [hue2rgb_seg1 r g (by norm_num) (by norm_num)]
            ring
        · -- r < b: minimum is r; hue in (1/3, 1/2]
          have hmn : min r (min g b) = r := by
            rw [hmgb, min_eq_left hbr.le]
          rw [hmn]
          have hgr' : (0 : ℚ) < g - r := by linarith
          have hX0 : 0 < (b - r) / (g - r) := div_pos (by linarith) hgr'
          have hX1 : (b - r) / (g - r) ≤ 1 := (div_le_one hgr').mpr (by linarith)
          simp only [Prod.mk.injEq]
          by_cases hbg2 : b < g
          · have hX1' : (b - r) / (g - r) < 1 := (div_lt_one hgr').mpr (by linarith)
            refine ⟨?_, ?_, ?_⟩
            · rw [hue2rgb_flat_p r g (by linarith) (by linarith)]
            · rw [hue2rgb_flat_q r g (by linarith) (by linarith)]
            · rw [hue2rgb_seg1 r g (by linarith) (by linarith)]
              field_simp
              ring
          · have hbe : b = g := le_antisymm hbg (not_lt.mp hbg2)
            have hXe : (b - r) / (g - r) = 1 := by
              rw [hbe, div_self (ne_of_gt hgr')]
            rw [hXe]
            refine ⟨?_, ?_, ?_⟩
            · rw [hue2rgb_flat_p r g (by norm_num) (by norm_num)]
            · rw [hue2rgb_seg3 r g (by norm_num) (by norm_num)]
              ring
            · rw [hue2rgb_flat_q r g (by norm_num) (by norm_num)]
              exact hbe.symm
      · -- the blue channel is the (strict over r and g) maximum
        rw [if_neg hxg]
        have hxb : max r (max g b) = b := by
          rcases max_choice r (max g b) with h | h
          · exact absurd h hxr
          · rcases max_choice g b with h2 | h2
            · exact absurd (h.trans h2) hxg
            · exact h.trans h2
        have hrb' : r ≤ b := hxb ▸ hAr
        have hgb' : g ≤ b := hxb ▸ hAg
        have hrb : r < b :=
          lt_of_le_of_ne hrb' (fun he => hxr (hxb.trans he.symm))
        have hgb : g < b :=
          lt_of_le_of_ne hgb' (fun he => hxg (hxb.trans he.symm))
        have hmgb : min g b = g := min_eq_left hgb.le
        rw [hxb]
        rcases lt_trichotomy r g with hrg | hrg | hrg
        · -- minimum is r; hue in (1/2, 2/3)
          have hmn : min r (min g b) = r := by
            rw [hmgb, min_eq_left hrg.le]
          rw [hmn]
          have hbr' : (0 : ℚ) < b - r := by linarith
          have hX1 : (r - g) / (b - r) < 0 :=
            div_neg_of_neg_of_pos (by linarith) hbr'
          have hX0 : -1 < (r - g) / (b - r) := by
            rw [lt_div_iff₀ hbr']
            linarith
          simp only [Prod.mk.injEq]
          refine ⟨?_, ?_, ?_⟩
          · rw [hue2rgb_flat_p r b (by linarith) (by linarith)]
          · rw [hue2rgb_seg3 r b (by linarith) (by linarith)]
            field_simp
            ring
          · rw [hue2rgb_flat_q r b (by linarith) (by linarith)]
        · -- r = g: minimum is r (= g); hue is exactly 2/3
          have hmn : min r (min g b) = r := by
            rw [hmgb, hrg, min_self]
          rw [hmn, ← hrg]
          have hXe : (r - r) / (b - r) = 0 := by
            rw [sub_self, zero_div]
          rw [hXe, zero_add]
          simp only [Prod.mk.injEq]
          refine ⟨?_, ?_, ?_⟩
          · rw [hue2rgb_flat_p r b (by norm_num) (by norm_num)]
          · rw [hue2rgb_flat_p r b (by norm_num) (by norm_num)]
          · rw [hue2rgb_flat_q r b (by norm_num) (by norm_num)]
        · -- g < r: minimum is g; hue in (2/3, 5/6)
          have hmn : min r (min g b) = g := by
            rw [hmgb, min_eq_right hrg.le]
          rw [hmn]
          have hbg'' : (0 : ℚ) < b - g := by linarith
          have hX0 : 0 < (r - g) / (b - g) := div_pos (by linarith) hbg''
          have hX1 : (r - g) / (b - g) < 1 := (div_lt_one hbg'').mpr (by linarith)
          simp only [Prod.mk.injEq]
          refine ⟨?_, ?_, ?_⟩
          · rw [hue2rgb_gt_seg1 g b (by linarith) (by linarith)]
            field_simp
            ring
          · rw [hue2rgb_flat_p g b (by linarith) (by linarith)]
          · rw [hue2rgb_flat_q g b (by linarith) (by linarith)]

lemma float64ToUint16_maxq : float64ToUint16 maxq = 65535 := by
  have h : maxq = ((65535 : ℕ) : ℚ) := by norm_num [maxq]
  rw [h]
  exact float64ToUint16_natCast 65535 le_rfl

/-- The HSL round trip on a channel-native color reproduces its RGB
channels exactly (the reconstructed alpha is `max`, the HSL record having
no alpha). -/
lemma hsl_roundtrip_color (c : Color) (hr : c.r ≤ 65535) (hg : c.g ≤ 65535)
    (hb : c.b ≤ 65535) :
    hsl2rgb (rgb2hsl c).h (rgb2hsl c).s (rgb2hsl c).l = ⟨c.r, c.g, c.b, 65535⟩ := by
  have hmax : (0 : ℚ) < maxq := by norm_num [maxq]
  have hcr : ((c.r : ℚ)) ≤ maxq := by
    rw [show maxq = ((65535 : ℕ) : ℚ) from by norm_num [maxq]]
    exact_mod_cast hr
  have hcg : ((c.g : ℚ)) ≤ maxq := by
    rw [show maxq = ((65535 : ℕ) : ℚ) from by norm_num [maxq]]
    exact_mod_cast hg
  have hcb : ((c.b : ℚ)) ≤ maxq := by
    rw [show maxq = ((65535 : ℕ) : ℚ) from by norm_num [maxq]]
    exact_mod_cast hb
  have hq := hslQ_roundtrip ((c.r : ℚ) / maxq) ((c.g : ℚ) / maxq) ((c.b : ℚ) / maxq)
    (by positivity) ((div_le_one hmax).mpr hcr)
    (by positivity) ((div_le_one hmax).mpr hcg)
    (by positivity) ((div_le_one hmax).mpr hcb)
  unfold rgb2hsl hsl2rgb color2rgbaf64
  dsimp only
  rw [hq]
  dsimp only
  rw [div_mul_cancel₀ _ (ne_of_gt hmax), div_mul_cancel₀ _ (ne_of_gt hmax),
    div_mul_cancel₀ _ (ne_of_gt hmax)]
  unfold rgbaf64.RGBA
  dsimp only
  rw [float64ToUint16_natCast c.r hr, float64ToUint16_natCast c.g hg,
    float64ToUint16_natCast c.b hb, float64ToUint16_maxq]

/-- C8 (definitions modelled from the spec, the repository's HSL source
being absent): the HSL round trip reproduces every in-range color within
±1 per RGB channel, and achromatic colors (r = g = b) round-trip exactly.
In the exact rational model the round trip is in fact exact for every
color, which implies both parts. -/
theorem claim_C8_hsl_roundtrip (c : Color) (hr : c.r ≤ 65535) (hg : c.g ≤ 65535)
    (hb : c.b ≤ 65535) :
    ((((hsl2rgb (rgb2hsl c).h (rgb2hsl c).s (rgb2hsl c).l).r : ℤ) - (c.r : ℤ)).natAbs ≤ 1 ∧
      (((hsl2rgb (rgb2hsl c).h (rgb2hsl c).s (rgb2hsl c).l).g : ℤ) - (c.g : ℤ)).natAbs ≤ 1 ∧
      (((hsl2rgb (rgb2hsl c).h (rgb2hsl c).s (rgb2hsl c).l).b : ℤ) - (c.b : ℤ)).natAbs ≤ 1) ∧
    (c.r = c.g → c.g = c.b →
      ((hsl2rgb (rgb2hsl c).h (rgb2hsl c).s (rgb2hsl c).l).r = c.r ∧
        (hsl2rgb (rgb2hsl c).h (rgb2hsl c).s (rgb2hsl c).l).g = c.g ∧
        (hsl2rgb (rgb2hsl c).h (rgb2hsl c).s (rgb2hsl c).l).b = c.b)) := by
  have h := hsl_roundtrip_color c hr hg hb
  rw [h]
  dsimp only
  refine ⟨⟨?_, ?_, ?_⟩, fun _ _ => ⟨rfl, rfl, rfl⟩⟩ <;> simp

theorem claim_C8_hsl_roundtrip_witness :
    ((100 : ℕ) ≤ 65535 ∧ (200 : ℕ) ≤ 65535 ∧ (300 : ℕ) ≤ 65535) ∧
    (((((hsl2rgb (rgb2hsl ⟨100, 200, 300, 7⟩).h (rgb2hsl ⟨100, 200, 300, 7⟩).s
            (rgb2hsl ⟨100, 200, 300, 7⟩).l).r : ℤ) -
          ((Color.mk 100 200 300 7).r : ℤ)).natAbs ≤ 1 ∧
        ((((hsl2rgb (rgb2hsl ⟨100, 200, 300, 7⟩).h (rgb2hsl ⟨100, 200, 300, 7⟩).s
            (rgb2hsl ⟨100, 200, 300, 7⟩).l).g : ℤ) -
          ((Color.mk 100 200 300 7).g : ℤ)).natAbs ≤ 1) ∧
        ((((hsl2rgb (rgb2hsl ⟨100, 200, 300, 7⟩).h (rgb2hsl ⟨100, 200, 300, 7⟩).s
            (rgb2hsl ⟨100, 200, 300, 7⟩).l).b : ℤ) -
          ((Color.mk 100 200 300 7).b : ℤ)).natAbs ≤ 1)) ∧
      ((Color.mk 100 200 300 7).r = (Color.mk 100 200 300 7).g →
        (Color.mk 100 200 300 7).g = (Color.mk 100 200 300 7).b →
        ((hsl2rgb (rgb2hsl ⟨100, 200, 300, 7⟩).h (rgb2hsl ⟨100, 200, 300, 7⟩).s
            (rgb2hsl ⟨100, 200, 300, 7⟩).l).r = (Color.mk 100 200 300 7).r ∧
          (hsl2rgb (rgb2hsl ⟨100, 200, 300, 7⟩).h (rgb2hsl ⟨100, 200, 300, 7⟩).s
            (rgb2hsl ⟨100, 200, 300, 7⟩).l).g = (Color.mk 100 200 300 7).g ∧
          (hsl2rgb (rgb2hsl ⟨100, 200, 300, 7⟩).h (rgb2hsl ⟨100, 200, 300, 7⟩).s
            (rgb2hsl ⟨100, 200, 300, 7⟩).l).b = (Color.mk 100 200 300 7).b))) :=
  ⟨by norm_num,
    claim_C8_hsl_roundtrip ⟨100, 200, 300, 7⟩ (by norm_num) (by norm_num) (by norm_num)⟩

end blend
